import Mathlib

/-!
Verification of the jmeslog changelog manager.

This file gives a shallow embedding of the core of the jmeslog code base
(src/jmeslog/model.py, src/jmeslog/core.py, jmeslog/errors.py) and proves
properties of it.  Python strings are modelled as Lean strings; the string
primitives the code uses (split, join, endswith, slicing, lexicographic
comparison, decimal printing and parsing) are implemented over the
character list of a string so that every definition evaluates inside the
kernel.  The filesystem is modelled as association lists from file names to
parsed contents; a staging directory that may be absent is an Option.
Fallible code returns Option or Except.
-/

/- ## Character-list string primitives (models of the Python primitives) -/

/-- Model of Python str.split with a one-character separator, on the
character list of a string.  The empty string splits to one empty piece,
matching Python. -/
def splitOnChar (sep : Char) : List Char → List (List Char)
  | [] => [[]]
  | c :: cs =>
    if c = sep then [] :: splitOnChar sep cs
    else
      match splitOnChar sep cs with
      | [] => [[c]]
      | p :: ps => (c :: p) :: ps

/-- Model of Python sep.join for a one-character separator. -/
def joinWithChar (sep : Char) : List (List Char) → List Char
  | [] => []
  | [x] => x
  | x :: xs => x ++ sep :: joinWithChar sep xs

/-- Model of Python sep.join on strings. -/
def joinSep (sep : String) : List String → String
  | [] => ""
  | [x] => x
  | x :: xs => x ++ sep ++ joinSep sep xs

/-- Fuel-driven helper for the decimal digits of a natural number; the
fuel only bounds the recursion depth so that the definition is structural
and evaluates inside the kernel.  Any fuel larger than the number is
enough. -/
def natDigitsAux : Nat → Nat → List Nat
  | 0, _ => []
  | fuel + 1, n =>
    if n < 10 then [n] else natDigitsAux fuel (n / 10) ++ [n % 10]

/-- The decimal digits of a natural number, most significant first, as
digit values.  Models the digit sequence produced by Python str(n). -/
def natDigits (n : Nat) : List Nat := natDigitsAux (n + 1) n

/-- The character for a single digit value. -/
def digitChar : Nat → Char
  | 0 => '0' | 1 => '1' | 2 => '2' | 3 => '3' | 4 => '4'
  | 5 => '5' | 6 => '6' | 7 => '7' | 8 => '8' | _ => '9'

/-- Model of Python str(n) for a natural number, as a character list. -/
def natChars (n : Nat) : List Char := (natDigits n).map digitChar

/-- Model of Python str(n) for a natural number. -/
def natStr (n : Nat) : String := String.mk (natChars n)

/-- The numeric value of a digit character, none for a non-digit.  Used to
model Python int() restricted to plain unsigned decimal digit strings; on
any other string int() raises, which the model reports as none. -/
def charDigitVal? (c : Char) : Option Nat :=
  if 48 ≤ c.toNat ∧ c.toNat ≤ 57 then some (c.toNat - 48) else none

def parseNatAux : Nat → List Char → Option Nat
  | acc, [] => some acc
  | acc, c :: cs =>
    match charDigitVal? c with
    | some d => parseNatAux (10 * acc + d) cs
    | none => none

/-- Model of Python int() on a nonempty unsigned decimal digit string. -/
def parseNat? (cs : List Char) : Option Nat :=
  match cs with
  | [] => none
  | _ => parseNatAux 0 cs

/-- Lexicographic (code-point) order on character lists: the order Python
uses to compare strings.  Non-strict version. -/
def lexLeB : List Char → List Char → Bool
  | [], _ => true
  | _ :: _, [] => false
  | a :: as, b :: bs => a.toNat < b.toNat || (a.toNat == b.toNat && lexLeB as bs)

/-- Lexicographic (code-point) order on character lists, strict version. -/
def lexLtB : List Char → List Char → Bool
  | _, [] => false
  | [], _ :: _ => true
  | a :: as, b :: bs => a.toNat < b.toNat || (a.toNat == b.toNat && lexLtB as bs)

/-- Python string comparison, non-strict. -/
def strLe (a b : String) : Prop := lexLeB a.toList b.toList = true

/-- Python string comparison, strict. -/
def strLt (a b : String) : Prop := lexLtB a.toList b.toList = true

instance : DecidableRel strLe := fun a b => by unfold strLe; infer_instance

instance : DecidableRel strLt := fun a b => by unfold strLt; infer_instance

/-- Model of Python f.endswith(suffix). -/
def strEndsWith (s suffix : String) : Bool :=
  decide (suffix.toList.length ≤ s.toList.length) &&
    decide (s.toList.drop (s.toList.length - suffix.toList.length) = suffix.toList)

/-- Model of the Python slice f[:-n] (drop the last n characters; empty
when the string has at most n characters). -/
def strDropRight (s : String) (n : Nat) : String :=
  String.mk (s.toList.take (s.toList.length - n))

/- ## Data model (src/jmeslog/model.py) -/

/-- VersionBump from model.py. -/
inductive VersionBump
  | PATCH_VERSION
  | MINOR_VERSION
  | MAJOR_VERSION
deriving DecidableEq

/-- JMESLogEntry from model.py: one atomic change record. -/
structure JMESLogEntry where
  type : String
  category : String
  description : String
deriving DecidableEq

def JMESLogEntry.empty : JMESLogEntry := ⟨"", "", ""⟩

/-- is_completed from model.py: all fields non-empty. -/
def JMESLogEntry.is_completed (e : JMESLogEntry) : Bool :=
  !(e.type = "" || e.category = "" || e.description = "")

/-- EntrySchema from model.py, with its default field values.  An empty
allowed-values list means any value is allowed. -/
structure EntrySchema where
  type : List String := ["feature", "bugfix", "enhancement"]
  category : List String := []
deriving DecidableEq

/-- JMESLogEntryCollection from model.py. -/
structure JMESLogEntryCollection where
  changes : List JMESLogEntry
  schema_version : String := "0.2"
  summary : String := ""
deriving DecidableEq

/-- The _OLD_SCHEMA_VERSION marker from model.py. -/
def OLD_SCHEMA_VERSION : String := "0.1"

/-- version_bump_type from model.py: a fold over the entries that switches
the bump to MINOR whenever an entry of type feature is seen. -/
def JMESLogEntryCollection.version_bump_type
    (c : JMESLogEntryCollection) : VersionBump :=
  c.changes.foldl
    (fun bump_type entry =>
      if entry.type = "feature" then VersionBump.MINOR_VERSION else bump_type)
    VersionBump.PATCH_VERSION

/-- The serialized (dict) form of a collection produced by to_dict: the
schema-version key, the changes key, and a summary key that is present only
when the summary is non-empty (the Option is none when the key is absent). -/
structure CollectionDict where
  schema_version : String
  changes : List JMESLogEntry
  summary : Option String
deriving DecidableEq

/-- to_dict from model.py. -/
def JMESLogEntryCollection.to_dict
    (c : JMESLogEntryCollection) : CollectionDict :=
  { schema_version := c.schema_version
    changes := c.changes
    summary := if c.summary ≠ "" then some c.summary else none }

/-- The two JSON shapes a release file may hold: the legacy shape, a bare
array of entry objects, or the current shape, a wrapping object. -/
inductive ReleaseInfo
  | list (entries : List JMESLogEntry)
  | dict (d : CollectionDict)
deriving DecidableEq

/-- from_dict from model.py: dispatches on the shape; a bare list goes
through _load_old_format, an object through _load_new_format (which reads a
missing summary key as the empty string). -/
def JMESLogEntryCollection.from_dict : ReleaseInfo → JMESLogEntryCollection
  | ReleaseInfo.list entries =>
    { changes := entries, schema_version := OLD_SCHEMA_VERSION }
  | ReleaseInfo.dict d =>
    { changes := d.changes
      schema_version := d.schema_version
      summary := d.summary.getD "" }

/- ## Version parsing, comparison and computation (src/jmeslog/core.py) -/

/-- The numeric value of a decimal digit list, most significant first. -/
def digitsVal : List Nat → Nat
  | [] => 0
  | d :: ds => d * 10 ^ ds.length + digitsVal ds

/-- Model of packaging.version.Version restricted to the plain
major.minor.patch shape used by the release files: parse a version string
into its numeric triple, none when the string is not three dot-separated
unsigned decimal numbers (on such input the library parser used as a sort
key raises). -/
def parseVersion (s : String) : Option (Nat × Nat × Nat) :=
  match (splitOnChar '.' s.toList).map parseNat? with
  | [some a, some b, some c] => some (a, b, c)
  | _ => none

/-- The sort key of a version string; unparseable strings are given a
default key so that the order stays total (the theorems only use it on
parseable versions). -/
def versionKey (s : String) : Nat × Nat × Nat :=
  (parseVersion s).getD (0, 0, 0)

/-- Lexicographic order on numeric version triples: compare major, then
minor, then patch, numerically.  Non-strict version. -/
def tripleLe (x y : Nat × Nat × Nat) : Prop :=
  x.1 < y.1 ∨ (x.1 = y.1 ∧ (x.2.1 < y.2.1 ∨ (x.2.1 = y.2.1 ∧ x.2.2 ≤ y.2.2)))

/-- Lexicographic order on numeric version triples, strict version. -/
def tripleLt (x y : Nat × Nat × Nat) : Prop :=
  x.1 < y.1 ∨ (x.1 = y.1 ∧ (x.2.1 < y.2.1 ∨ (x.2.1 = y.2.1 ∧ x.2.2 < y.2.2)))

instance (x y : Nat × Nat × Nat) : Decidable (tripleLe x y) := by
  unfold tripleLe; infer_instance

instance (x y : Nat × Nat × Nat) : Decidable (tripleLt x y) := by
  unfold tripleLt; infer_instance

/-- Semantic-version comparison of version strings, non-strict. -/
def verLe (v w : String) : Prop := tripleLe (versionKey v) (versionKey w)

/-- Semantic-version comparison of version strings, strict. -/
def verLt (v w : String) : Prop := tripleLt (versionKey v) (versionKey w)

instance : DecidableRel verLe := fun v w => by unfold verLe; infer_instance

instance : DecidableRel verLt := fun v w => by unfold verLt; infer_instance

instance : IsTotal String verLe where
  total := by intro a b; unfold verLe tripleLe; omega

instance : IsTrans String verLe where
  trans := by intro a b c; unfold verLe tripleLe; omega

/-- sorted_versioned_releases from core.py: keep the directory entries
that end in .json, strip that suffix, and sort by the version sort key.
Python sorted is a stable sort, modelled by insertion sort. -/
def sorted_versioned_releases (files : List String) : List String :=
  List.insertionSort verLe
    ((files.filter (fun f => strEndsWith f ".json")).map (fun f => strDropRight f 5))

/-- find_last_released_version from core.py: the last element of the
sorted version list, or 0.0.0 when there are no releases. -/
def find_last_released_version (files : List String) : String :=
  match (sorted_versioned_releases files).getLast? with
  | some v => v
  | none => "0.0.0"

/-- determine_next_version from core.py: split the last released version
on dots, bump the component selected by the bump type (resetting the lower
components to the literal 0), and join the parts back.  Out-of-range list
indexing and non-numeric components raise in Python and give none here. -/
def determine_next_version
    (last_released_version : String) (version_bump_type : VersionBump) :
    Option String :=
  let parts := splitOnChar '.' last_released_version.toList
  match version_bump_type with
  | VersionBump.PATCH_VERSION =>
    match parts[2]? with
    | none => none
    | some p2 =>
      match parseNat? p2 with
      | none => none
      | some z =>
        some (String.mk (joinWithChar '.' (parts.set 2 (natChars (z + 1)))))
  | VersionBump.MINOR_VERSION =>
    match parts[1]? with
    | none => none
    | some p1 =>
      match parseNat? p1 with
      | none => none
      | some y =>
        match parts[2]? with
        | none => none
        | some _ =>
          some (String.mk (joinWithChar '.'
            ((parts.set 1 (natChars (y + 1))).set 2 ['0'])))
  | VersionBump.MAJOR_VERSION =>
    match parts[0]? with
    | none => none
    | some p0 =>
      match parseNat? p0 with
      | none => none
      | some x =>
        match parts[1]? with
        | none => none
        | some _ =>
          match parts[2]? with
          | none => none
          | some _ =>
            some (String.mk (joinWithChar '.'
              (((parts.set 0 (natChars (x + 1))).set 1 ['0']).set 2 ['0'])))

/-- The canonical string form of a numeric version triple. -/
def mkVersionString (x y z : Nat) : String :=
  String.mk (natChars x ++ '.' :: natChars y ++ '.' :: natChars z)

/- ## Validation (core.py validate_change_entry, errors.py ValidationError) -/

/-- The allowed-values violation message of validate_change_entry. -/
def must_be_one_of_msg (name : String) (allowed : List String) (value : String) :
    String :=
  "The \"" ++ name ++ "\" value must be one of: " ++ joinSep ", " allowed
    ++ ", received: \"" ++ value ++ "\""

/-- The empty-field violation message of validate_change_entry. -/
def cannot_be_empty_msg (name : String) : String :=
  "The \"" ++ name ++ "\" value cannot be empty."

/-- asdict(entry): field names and values in dataclass field order. -/
def entry_items (e : JMESLogEntry) : List (String × String) :=
  [("type", e.type), ("category", e.category), ("description", e.description)]

/-- fields(schema) with asdict(schema): schema field names and allowed
values in dataclass field order. -/
def schema_items (s : EntrySchema) : List (String × List String) :=
  [("type", s.type), ("category", s.category)]

/-- validate_change_entry from core.py: one loop over the schema fields
recording an allowed-values violation when the allowed list is non-empty
and the entry value is not in it, then one loop over all entry fields
recording an empty-value violation; raises (Except.error) with the
accumulated list exactly when it is non-empty. -/
def validate_change_entry (entry : JMESLogEntry) (schema : EntrySchema) :
    Except (List String) Unit :=
  let entry_dict := entry_items entry
  let errors :=
    (schema_items schema).flatMap (fun p =>
      let value := (entry_dict.lookup p.1).getD ""
      if p.2 ≠ [] ∧ value ∉ p.2 then [must_be_one_of_msg p.1 p.2 value]
      else [])
    ++ entry_dict.flatMap (fun p =>
      if p.2 = "" then [cannot_be_empty_msg p.1] else [])
  if errors = [] then Except.ok () else Except.error errors

/-- str of ValidationError from errors.py: a header line, a blank line,
then the violations one per line. -/
def validationErrorStr (errors : List String) : String :=
  "The change entry is invalid:\n\n" ++ joinSep "\n" errors

/-- The violation list exactly as the spec words it, per concrete field:
the claim-side reference definition compared against the code-side
validate_change_entry. -/
def spec_violations (entry : JMESLogEntry) (schema : EntrySchema) :
    List String :=
  (if schema.type ≠ [] ∧ entry.type ∉ schema.type
   then [must_be_one_of_msg "type" schema.type entry.type] else [])
  ++ (if schema.category ≠ [] ∧ entry.category ∉ schema.category
      then [must_be_one_of_msg "category" schema.category entry.category]
      else [])
  ++ (if entry.type = "" then [cannot_be_empty_msg "type"] else [])
  ++ (if entry.category = "" then [cannot_be_empty_msg "category"] else [])
  ++ (if entry.description = "" then [cannot_be_empty_msg "description"] else [])

/- ## Storage manager (core.py) -/

/-- NoChangesFoundError from errors.py. -/
inductive StorageError
  | noChangesFound
deriving DecidableEq

/-- The order in which Python sorted(os.listdir(...)) arranges the staged
files, as a relation on (filename, parsed entry) pairs. -/
def fileNameLe (p q : String × JMESLogEntry) : Prop := strLe p.1 q.1

instance : DecidableRel fileNameLe := fun p q => by
  unfold fileNameLe; infer_instance

/-- load_next_changes from core.py.  The staging directory is none when it
does not exist on disk, otherwise it lists its files with their parsed
entries (in arbitrary listdir order); the entries are collected in sorted
filename order into a collection with the default schema version and an
empty summary. -/
def load_next_changes (staging : Option (List (String × JMESLogEntry))) :
    Except StorageError JMESLogEntryCollection :=
  match staging with
  | none => Except.error StorageError.noChangesFound
  | some files =>
    Except.ok { changes := (List.insertionSort fileNameLe files).map Prod.snd }

/-- The change directory: the release .json files with their parsed
contents, and the staging subdirectory (none when absent). -/
structure ChangeDir where
  releases : List (String × ReleaseInfo)
  staging : Option (List (String × JMESLogEntry))

/-- Writing a file into a directory listing: replace the content under an
existing name, or add the file. -/
def writeFile :
    List (String × ReleaseInfo) → String → ReleaseInfo →
      List (String × ReleaseInfo)
  | [], name, content => [(name, content)]
  | (n, c) :: rest, name, content =>
    if n = name then (name, content) :: rest
    else (n, c) :: writeFile rest name content

/-- consolidate_next_release from core.py: write {version}.json holding
the serialized collection, then delete the staging directory.  The release
file is written first; when the staging directory is absent the deletion
(shutil.rmtree) raises, which the model reports as a none path together
with the partially updated directory. -/
def consolidate_next_release (next_version : String) (change_dir : ChangeDir)
    (changes : JMESLogEntryCollection) : Option String × ChangeDir :=
  let release_file := next_version ++ ".json"
  let written : ChangeDir :=
    { change_dir with
        releases := writeFile change_dir.releases release_file
          (ReleaseInfo.dict changes.to_dict) }
  match change_dir.staging with
  | none => (none, written)
  | some _ => (some release_file, { written with staging := none })

/-- load_all_changes from core.py: for each version in ascending
semantic-version order, read {version}.json and deserialize it through
from_dict; the resulting mapping keeps that insertion order. -/
def load_all_changes (dir_files : List (String × ReleaseInfo)) :
    List (String × JMESLogEntryCollection) :=
  (sorted_versioned_releases (dir_files.map Prod.fst)).filterMap
    (fun version_number =>
      (dir_files.lookup (version_number ++ ".json")).map
        (fun data => (version_number, JMESLogEntryCollection.from_dict data)))

/-- The order in which render_changes iterates the releases: the template
context is reversed(list(changes.items())), so the rendered output lists
the versions in the reverse of the order stored in the mapping. -/
def render_changes_order (changes : List (String × JMESLogEntryCollection)) :
    List String :=
  (changes.map Prod.fst).reverse

/- ## Staged-entry filename generation (core.py EntryFileWriter) -/

/-- Membership in VALID_CHARS from constants.py: ascii letters and
digits. -/
def valid_char (c : Char) : Bool := c.isAlpha || c.isDigit

/-- The category filtered to VALID_CHARS (the short_summary built inside
_generate_random_file). -/
def short_summary (category : String) : String :=
  String.mk (category.toList.filter valid_char)

/-- The filename produced by _random_filename for one staged entry: the
monotonic-clock reading, the entry type, the filtered category and the
random component, dash-separated, with a .json suffix. -/
def generated_filename (t : Nat) (entry : JMESLogEntry) (r : Nat) : String :=
  natStr t ++ "-" ++ entry.type ++ "-" ++ short_summary entry.category
    ++ "-" ++ natStr r ++ ".json"

/-- The staged files for a sequence of entries staged one after another in
this order: each stage event is a clock reading, the entry, and the random
component, and produces one file named by generated_filename holding that
entry. -/
def staged_files (events : List (Nat × JMESLogEntry × Nat)) :
    List (String × JMESLogEntry) :=
  events.map (fun p => (generated_filename p.1 p.2.1 p.2.2, p.2.1))

instance {ε α : Type} [DecidableEq ε] [DecidableEq α] :
    DecidableEq (Except ε α) := fun x y =>
  match x, y with
  | Except.ok a, Except.ok b =>
    if h : a = b then isTrue (by subst h; rfl)
    else isFalse (by simp [h])
  | Except.ok _, Except.error _ => isFalse (by simp)
  | Except.error _, Except.ok _ => isFalse (by simp)
  | Except.error f, Except.error g =>
    if h : f = g then isTrue (by subst h; rfl)
    else isFalse (by simp [h])

/- ## Claims C4, C8, C10 -/

theorem version_bump_type_foldl (l : List JMESLogEntry) (b : VersionBump) :
    l.foldl
      (fun bump_type entry =>
        if entry.type = "feature" then VersionBump.MINOR_VERSION else bump_type) b
    = if l.any (fun e => e.type == "feature") then VersionBump.MINOR_VERSION else b := by
  induction l generalizing b with
  | nil => simp
  | cons e l ih =>
    simp only [List.foldl_cons, List.any_cons, ih]
    by_cases h : e.type = "feature" <;> simp [h]

/-- Claim C4: the derived bump type of a collection is MINOR exactly when
some entry has type feature and PATCH otherwise, and it is never MAJOR.
The spec examples are included: three bugfixes give PATCH, a single feature
gives MINOR, a feature plus a bugfix gives MINOR. -/
theorem C4_version_bump_type (c : JMESLogEntryCollection) :
    (c.version_bump_type
      = if c.changes.any (fun e => e.type == "feature")
        then VersionBump.MINOR_VERSION else VersionBump.PATCH_VERSION)
    ∧ c.version_bump_type ≠ VersionBump.MAJOR_VERSION
    ∧ (JMESLogEntryCollection.mk
        [⟨"bugfix", "a", "x"⟩, ⟨"bugfix", "b", "y"⟩, ⟨"bugfix", "c", "z"⟩]
        "0.2" "").version_bump_type = VersionBump.PATCH_VERSION
    ∧ (JMESLogEntryCollection.mk [⟨"feature", "a", "x"⟩] "0.2" "").version_bump_type
        = VersionBump.MINOR_VERSION
    ∧ (JMESLogEntryCollection.mk
        [⟨"feature", "a", "x"⟩, ⟨"bugfix", "b", "y"⟩] "0.2" "").version_bump_type
        = VersionBump.MINOR_VERSION := by
  refine ⟨?_, ?_, by decide, by decide, by decide⟩
  · exact version_bump_type_foldl c.changes VersionBump.PATCH_VERSION
  · rw [JMESLogEntryCollection.version_bump_type, version_bump_type_foldl]
    by_cases h : c.changes.any (fun e => e.type == "feature") <;> simp [h]

/-- Claim C8: a release file holding a bare array of entries deserializes
successfully into a collection with exactly those entries, the legacy
schema-version marker 0.1, and an empty summary. -/
theorem C8_legacy_load (entries : List JMESLogEntry) :
    JMESLogEntryCollection.from_dict (ReleaseInfo.list entries)
      = { changes := entries, schema_version := "0.1", summary := "" }
    ∧ (JMESLogEntryCollection.from_dict (ReleaseInfo.list entries)).changes = entries
    ∧ (JMESLogEntryCollection.from_dict (ReleaseInfo.list entries)).schema_version
        = OLD_SCHEMA_VERSION
    ∧ (JMESLogEntryCollection.from_dict (ReleaseInfo.list entries)).summary = "" := by
  refine ⟨?_, rfl, rfl, rfl⟩
  rfl

/-- Claim C10: serialization round-trips.  from_dict of to_dict is the
identity on collections; to_dict omits the summary key exactly when the
summary is empty; and from_dict restores a missing summary key as the empty
string. -/
theorem C10_round_trip (c : JMESLogEntryCollection) :
    JMESLogEntryCollection.from_dict (ReleaseInfo.dict c.to_dict) = c
    ∧ (c.to_dict.summary = none ↔ c.summary = "")
    ∧ (∀ sv es, (JMESLogEntryCollection.from_dict
        (ReleaseInfo.dict ⟨sv, es, none⟩)).summary = "") := by
  refine ⟨?_, ?_, fun sv es => rfl⟩
  · rw [JMESLogEntryCollection.from_dict, JMESLogEntryCollection.to_dict]
    by_cases h : c.summary = "" <;> simp [h] <;> cases c <;> simp_all
  · rw [JMESLogEntryCollection.to_dict]
    by_cases h : c.summary = "" <;> simp [h]

/- ## Decimal digit lemmas -/

theorem natDigitsAux_fuel (f1 f2 n : Nat) (h1 : n < f1) (h2 : n < f2) :
    natDigitsAux f1 n = natDigitsAux f2 n := by
  induction f1 generalizing f2 n with
  | zero => omega
  | succ f ih =>
    cases f2 with
    | zero => omega
    | succ g =>
      simp only [natDigitsAux]
      by_cases h : n < 10
      · simp [h]
      · simp only [h, if_false]
        have hd : n / 10 < n := Nat.div_lt_self (by omega) (by omega)
        rw [ih g (n / 10) (by omega) (by omega)]

theorem natDigits_eq (n : Nat) :
    natDigits n = if n < 10 then [n] else natDigits (n / 10) ++ [n % 10] := by
  unfold natDigits
  by_cases h : n < 10
  · simp [natDigitsAux, h]
  · simp only [natDigitsAux, h, if_false]
    have hd : n / 10 < n := Nat.div_lt_self (by omega) (by omega)
    congr 1
    exact natDigitsAux_fuel n (n / 10 + 1) (n / 10) (by omega) (by omega)

theorem natDigits_ne_nil (n : Nat) : natDigits n ≠ [] := by
  rw [natDigits_eq]
  by_cases h : n < 10 <;> simp [h]

theorem natDigits_lt_ten (n : Nat) : ∀ d ∈ natDigits n, d < 10 := by
  induction n using Nat.strong_induction_on with
  | _ n ih =>
    rw [natDigits_eq]
    by_cases h : n < 10
    · rw [if_pos h]
      intro d hd
      rw [List.mem_singleton] at hd
      omega
    · simp only [h, if_false]
      intro d hd
      rcases List.mem_append.mp hd with h1 | h2
      · have hlt : n / 10 < n := Nat.div_lt_self (by omega) (by omega)
        exact ih (n / 10) hlt d h1
      · simp only [List.mem_singleton] at h2
        omega

theorem digitsVal_append (xs : List Nat) (d : Nat) :
    digitsVal (xs ++ [d]) = 10 * digitsVal xs + d := by
  induction xs with
  | nil => simp [digitsVal]
  | cons x xs ih =>
    have e1 : digitsVal (x :: (xs ++ [d]))
        = x * 10 ^ (xs ++ [d]).length + digitsVal (xs ++ [d]) := rfl
    have e2 : digitsVal (x :: xs) = x * 10 ^ xs.length + digitsVal xs := rfl
    have e3 : (xs ++ [d]).length = xs.length + 1 := by simp
    rw [List.cons_append, e1, e2, ih, e3, pow_succ]
    ring

theorem digitsVal_natDigits (n : Nat) : digitsVal (natDigits n) = n := by
  induction n using Nat.strong_induction_on with
  | _ n ih =>
    rw [natDigits_eq]
    by_cases h : n < 10
    · simp [h, digitsVal]
    · simp only [h, if_false]
      have hlt : n / 10 < n := Nat.div_lt_self (by omega) (by omega)
      rw [digitsVal_append, ih (n / 10) hlt]
      omega

theorem digitsVal_lt (xs : List Nat) (h : ∀ d ∈ xs, d < 10) :
    digitsVal xs < 10 ^ xs.length := by
  induction xs with
  | nil => simp [digitsVal]
  | cons x xs ih =>
    have hx : x < 10 := h x (by simp)
    have hv := ih (fun d hd => h d (by simp [hd]))
    simp only [digitsVal, List.length_cons, pow_succ]
    calc x * 10 ^ xs.length + digitsVal xs
        < x * 10 ^ xs.length + 10 ^ xs.length := by omega
      _ = (x + 1) * 10 ^ xs.length := by ring
      _ ≤ 10 * 10 ^ xs.length := Nat.mul_le_mul_right _ (by omega)
      _ = 10 ^ xs.length * 10 := by ring

theorem charDigitVal_digitChar (d : Nat) (h : d < 10) :
    charDigitVal? (digitChar d) = some d := by
  interval_cases d <;> decide

theorem parseNatAux_digits (ds : List Nat) (h : ∀ d ∈ ds, d < 10) :
    ∀ acc : Nat,
      parseNatAux acc (ds.map digitChar)
        = some (acc * 10 ^ ds.length + digitsVal ds) := by
  induction ds with
  | nil => intro acc; simp [parseNatAux, digitsVal]
  | cons d ds ih =>
    intro acc
    have hd : d < 10 := h d (by simp)
    simp only [List.map_cons, parseNatAux, charDigitVal_digitChar d hd]
    rw [ih (fun x hx => h x (by simp [hx])) (10 * acc + d)]
    congr 1
    simp only [digitsVal, List.length_cons, pow_succ]
    ring

theorem parseNat_natChars (n : Nat) : parseNat? (natChars n) = some n := by
  have h1 : natChars n ≠ [] := by
    unfold natChars
    simp [natDigits_ne_nil]
  unfold parseNat?
  split
  · exact absurd (by assumption) h1
  · unfold natChars
    rw [parseNatAux_digits (natDigits n) (natDigits_lt_ten n) 0]
    simp [digitsVal_natDigits]

theorem digitChar_ne_dot (d : Nat) : digitChar d ≠ '.' := by
  unfold digitChar
  split <;> decide

theorem dot_not_mem_natChars (n : Nat) : '.' ∉ natChars n := by
  unfold natChars
  intro h
  rcases List.mem_map.mp h with ⟨d, _, hd⟩
  exact digitChar_ne_dot d hd

/- ## splitOnChar lemmas -/

theorem splitOnChar_ne_nil (sep : Char) (xs : List Char) :
    splitOnChar sep xs ≠ [] := by
  cases xs with
  | nil => simp [splitOnChar]
  | cons c cs =>
    simp only [splitOnChar]
    by_cases h : c = sep
    · simp [h]
    · simp only [h, if_false]
      cases splitOnChar sep cs <;> simp

theorem splitOnChar_of_not_mem (sep : Char) (xs : List Char) (h : sep ∉ xs) :
    splitOnChar sep xs = [xs] := by
  induction xs with
  | nil => rfl
  | cons c cs ih =>
    have hc : ¬ c = sep := fun e => h (by simp [e])
    have hcs : sep ∉ cs := fun m => h (by simp [m])
    simp only [splitOnChar, hc, if_false, ih hcs]

theorem splitOnChar_append (sep : Char) (xs ys : List Char) (h : sep ∉ xs) :
    splitOnChar sep (xs ++ sep :: ys) = xs :: splitOnChar sep ys := by
  induction xs with
  | nil => simp [splitOnChar]
  | cons c cs ih =>
    have hc : ¬ c = sep := fun e => h (by simp [e])
    have hcs : sep ∉ cs := fun m => h (by simp [m])
    simp only [List.cons_append, splitOnChar, hc, if_false, List.append_eq, ih hcs]

theorem splitVersionString (x y z : Nat) :
    splitOnChar '.' (mkVersionString x y z).toList
      = [natChars x, natChars y, natChars z] := by
  have h0 : (mkVersionString x y z).toList
      = (natChars x ++ '.' :: natChars y) ++ '.' :: natChars z := rfl
  rw [h0, List.append_assoc, List.cons_append,
      splitOnChar_append '.' (natChars x) _ (dot_not_mem_natChars x),
      splitOnChar_append '.' (natChars y) _ (dot_not_mem_natChars y),
      splitOnChar_of_not_mem '.' (natChars z) (dot_not_mem_natChars z)]

/-- Claim C3: on a version of the form X.Y.Z, a PATCH bump yields
X.Y.(Z+1) with X and Y untouched, a MINOR bump yields X.(Y+1).0, and a
MAJOR bump yields (X+1).0.0, together with the spec examples. -/
theorem C3_determine_next_version (x y z : Nat) :
    determine_next_version (mkVersionString x y z) VersionBump.PATCH_VERSION
      = some (mkVersionString x y (z + 1))
    ∧ determine_next_version (mkVersionString x y z) VersionBump.MINOR_VERSION
      = some (mkVersionString x (y + 1) 0)
    ∧ determine_next_version (mkVersionString x y z) VersionBump.MAJOR_VERSION
      = some (mkVersionString (x + 1) 0 0)
    ∧ determine_next_version "1.0.0" VersionBump.MINOR_VERSION = some "1.1.0"
    ∧ determine_next_version "1.9.0" VersionBump.MINOR_VERSION = some "1.10.0"
    ∧ determine_next_version "1.1.1" VersionBump.MAJOR_VERSION = some "2.0.0" := by
  refine ⟨?_, ?_, ?_, by decide, by decide, by decide⟩
  all_goals
    simp only [determine_next_version, splitVersionString, List.getElem?_cons_zero,
      List.getElem?_cons_succ, parseNat_natChars, List.set]
    simp [joinWithChar, mkVersionString]
    try rfl

/- ## Version ordering lemmas and claim C2 -/

theorem verLe_refl (v : String) : verLe v v := by
  unfold verLe tripleLe
  omega

theorem find_last_eq (files : List String) :
    find_last_released_version files
      = (sorted_versioned_releases files).getLast?.getD "0.0.0" := by
  unfold find_last_released_version
  cases (sorted_versioned_releases files).getLast? <;> rfl

theorem getLastD_mem {α : Type} (l : List α) (d : α) (h : l ≠ []) :
    l.getLast?.getD d ∈ l := by
  induction l with
  | nil => exact absurd rfl h
  | cons x xs ih =>
    cases xs with
    | nil => simp [List.getLast?]
    | cons y ys =>
      rw [List.getLast?_cons_cons]
      exact List.mem_cons_of_mem x (ih (by simp))

theorem sorted_le_getLastD (l : List String) (hs : List.Sorted verLe l) :
    ∀ v ∈ l, verLe v (l.getLast?.getD "0.0.0") := by
  induction l with
  | nil => simp
  | cons x xs ih =>
    intro v hv
    rcases List.mem_cons.mp hv with rfl | hv2
    · cases xs with
      | nil =>
        simp only [List.getLast?, Option.getD_some]
        exact verLe_refl v
      | cons y ys =>
        rw [List.getLast?_cons_cons]
        have hmem := getLastD_mem (y :: ys) "0.0.0" (by simp)
        exact (List.pairwise_cons.mp hs).1 _ hmem
    · cases xs with
      | nil => cases hv2
      | cons y ys =>
        rw [List.getLast?_cons_cons]
        exact ih hs.of_cons v hv2

/-- Claim C2: sorted_versioned_releases keeps exactly the directory files
ending in .json, strips that suffix, and returns the version strings in
ascending numeric semantic-version order; find_last_released_version is an
upper bound of that list under semantic-version order and is 0.0.0 for an
empty directory.  The spec example list returns 1.20.0, and 1.9.0 is below
1.10.0 numerically even though it is above it lexically. -/
theorem C2_sorted_versioned_releases (files : List String) :
    List.Sorted verLe (sorted_versioned_releases files)
    ∧ List.Perm (sorted_versioned_releases files)
        ((files.filter (fun f => strEndsWith f ".json")).map
          (fun f => strDropRight f 5))
    ∧ (∀ v ∈ sorted_versioned_releases files,
        verLe v (find_last_released_version files))
    ∧ find_last_released_version [] = "0.0.0"
    ∧ find_last_released_version
        ["0.0.1.json", "0.1.1.json", "0.1.10.json", "1.2.3.json",
         "1.2.30.json", "1.10.0.json", "1.20.0.json"] = "1.20.0"
    ∧ verLt "1.9.0" "1.10.0"
    ∧ ¬ strLt "1.9.0" "1.10.0" := by
  refine ⟨List.sorted_insertionSort verLe _, List.perm_insertionSort verLe _,
    ?_, by decide, by decide, by decide, by decide⟩
  intro v hv
  rw [find_last_eq]
  exact sorted_le_getLastD _ (List.sorted_insertionSort verLe _) v hv

/- ## Claim C5: validation -/

theorem validate_eq_spec (e : JMESLogEntry) (s : EntrySchema) :
    validate_change_entry e s =
      (if spec_violations e s = [] then Except.ok ()
       else Except.error (spec_violations e s)) := by
  have hb : ("category" == "type") = false := by decide
  unfold validate_change_entry spec_violations entry_items schema_items
  simp only [List.flatMap_cons, List.flatMap_nil, List.append_nil,
    List.append_assoc, List.lookup, beq_self_eq_true, hb, Option.getD_some]

/-- Claim C5: validate raises exactly when at least one check fails, and
the failure carries the full ordered list of violations: first the
allowed-values messages for the schema-constrained fields, then the
empty-value messages for every field, with the exact message texts; the
surfaced message is a header line followed by one violation per line.  The
spec example is included. -/
theorem C5_validate_change_entry (e : JMESLogEntry) (s : EntrySchema) :
    (validate_change_entry e s = Except.error (spec_violations e s)
      ↔ spec_violations e s ≠ [])
    ∧ (validate_change_entry e s = Except.ok () ↔ spec_violations e s = [])
    ∧ (∀ msgs, validationErrorStr msgs
        = "The change entry is invalid:\n\n" ++ joinSep "\n" msgs)
    ∧ validate_change_entry ⟨"notafeature", "foo", "bar"⟩
        ⟨["feature", "bugfix"], []⟩
      = Except.error
          ["The \"type\" value must be one of: feature, bugfix, received: \"notafeature\""]
    ∧ validate_change_entry ⟨"notafeature", "", "bar"⟩
        ⟨["feature", "bugfix"], []⟩
      = Except.error
          ["The \"type\" value must be one of: feature, bugfix, received: \"notafeature\"",
           "The \"category\" value cannot be empty."]
    ∧ validationErrorStr ["a", "b"] = "The change entry is invalid:\n\na\nb" := by
  refine ⟨?_, ?_, fun msgs => rfl, by decide, by decide, by decide⟩
  · rw [validate_eq_spec]
    by_cases h : spec_violations e s = [] <;> simp [h]
  · rw [validate_eq_spec]
    by_cases h : spec_violations e s = [] <;> simp [h]

/- ## Lexicographic string-order lemmas -/

theorem lexLeB_total (as : List Char) :
    ∀ bs, lexLeB as bs = true ∨ lexLeB bs as = true := by
  induction as with
  | nil => intro bs; left; rfl
  | cons a as ih =>
    intro bs
    cases bs with
    | nil => right; rfl
    | cons b bs =>
      simp only [lexLeB, Bool.or_eq_true, Bool.and_eq_true, beq_iff_eq,
        decide_eq_true_eq]
      rcases Nat.lt_trichotomy a.toNat b.toNat with h | h | h
      · left; left; exact h
      · rcases ih bs with h2 | h2
        · left; right; exact ⟨h, h2⟩
        · right; right; exact ⟨h.symm, h2⟩
      · right; left; exact h

theorem lexLeB_trans (as : List Char) :
    ∀ bs cs, lexLeB as bs = true → lexLeB bs cs = true →
      lexLeB as cs = true := by
  induction as with
  | nil => intro bs cs _ _; rfl
  | cons a as ih =>
    intro bs cs h1 h2
    cases bs with
    | nil => simp [lexLeB] at h1
    | cons b bs =>
      cases cs with
      | nil => simp [lexLeB] at h2
      | cons c cs =>
        simp only [lexLeB, Bool.or_eq_true, Bool.and_eq_true, beq_iff_eq,
          decide_eq_true_eq] at h1 h2 ⊢
        rcases h1 with h1 | ⟨h1e, h1r⟩ <;> rcases h2 with h2 | ⟨h2e, h2r⟩
        · left; omega
        · left; omega
        · left; omega
        · right; exact ⟨by omega, ih bs cs h1r h2r⟩

instance : IsTotal (String × JMESLogEntry) fileNameLe where
  total := fun p q => lexLeB_total p.1.toList q.1.toList

instance : IsTrans (String × JMESLogEntry) fileNameLe where
  trans := fun p q r => lexLeB_trans p.1.toList q.1.toList r.1.toList

/- ## Claim C6: loading pending changes -/

/-- Claim C6: loading pending changes fails with NoChangesFoundError
exactly when the staging directory is absent; when it exists, even empty,
the result is an unversioned collection (default schema version, empty
summary) whose entries are the parsed staged files in sorted filename
order, that order being the output order. -/
theorem C6_load_next_changes :
    (∀ staging, (∃ err, load_next_changes staging = Except.error err)
      ↔ staging = none)
    ∧ load_next_changes none = Except.error StorageError.noChangesFound
    ∧ (∀ files, ∃ c, load_next_changes (some files) = Except.ok c
        ∧ c.schema_version = "0.2"
        ∧ c.summary = ""
        ∧ c.changes = (List.insertionSort fileNameLe files).map Prod.snd
        ∧ List.Sorted fileNameLe (List.insertionSort fileNameLe files)
        ∧ List.Perm (List.insertionSort fileNameLe files) files)
    ∧ load_next_changes (some [])
        = Except.ok { changes := [], schema_version := "0.2", summary := "" } := by
  refine ⟨?_, rfl, ?_, rfl⟩
  · intro staging
    cases staging with
    | none =>
      exact ⟨fun _ => rfl, fun _ => ⟨StorageError.noChangesFound, rfl⟩⟩
    | some files =>
      simp only [load_next_changes]
      constructor
      · rintro ⟨err, h⟩
        simp at h
      · intro h
        simp at h
  · intro files
    exact ⟨_, rfl, rfl, rfl, rfl, List.sorted_insertionSort _ _,
      List.perm_insertionSort _ _⟩

/- ## Claim C7: consolidation -/

theorem lookup_writeFile (rs : List (String × ReleaseInfo)) (name : String)
    (v : ReleaseInfo) : (writeFile rs name v).lookup name = some v := by
  induction rs with
  | nil => simp [writeFile, List.lookup]
  | cons p rs ih =>
    rcases p with ⟨n, c⟩
    by_cases h : n = name
    · simp [writeFile, h, List.lookup]
    · have hbeq : (name == n) = false := by
        simp [beq_iff_eq]
        exact fun e => h e.symm
      simp [writeFile, h, List.lookup, hbeq, ih]

/-- Claim C7: when consolidation succeeds (the staging directory existed),
the change directory afterwards contains {version}.json holding the full
serialized collection: the current schema-version tag, the previously
staged entries in staged (sorted filename) order, and no summary key when
the summary is empty; and the staging directory no longer exists. -/
theorem C7_consolidate_next_release (dir : ChangeDir)
    (files : List (String × JMESLogEntry)) (version : String)
    (c : JMESLogEntryCollection)
    (hstage : dir.staging = some files)
    (hload : load_next_changes dir.staging = Except.ok c) :
    ∃ dir2,
      consolidate_next_release version dir c
        = (some (version ++ ".json"), dir2)
      ∧ dir2.staging = none
      ∧ dir2.releases.lookup (version ++ ".json")
          = some (ReleaseInfo.dict c.to_dict)
      ∧ c.to_dict.schema_version = "0.2"
      ∧ c.to_dict.changes = (List.insertionSort fileNameLe files).map Prod.snd
      ∧ c.to_dict.summary = none := by
  have hc : c = JMESLogEntryCollection.mk
      ((List.insertionSort fileNameLe files).map Prod.snd) "0.2" "" := by
    rw [hstage] at hload
    simp only [load_next_changes, Except.ok.injEq] at hload
    exact hload.symm
  subst hc
  simp only [consolidate_next_release, hstage]
  exact ⟨_, rfl, rfl, lookup_writeFile _ _ _, rfl, rfl, rfl⟩

/-- Witness for C7 at a concrete change directory with one staged file. -/
theorem C7_consolidate_next_release_witness :
    ∃ dir2,
      consolidate_next_release "0.1.0"
          (ChangeDir.mk [] (some [("a.json", ⟨"feature", "x", "d"⟩)]))
          ⟨[⟨"feature", "x", "d"⟩], "0.2", ""⟩
        = (some ("0.1.0" ++ ".json"), dir2)
      ∧ dir2.staging = none
      ∧ dir2.releases.lookup ("0.1.0" ++ ".json")
          = some (ReleaseInfo.dict
              (JMESLogEntryCollection.to_dict ⟨[⟨"feature", "x", "d"⟩], "0.2", ""⟩))
      ∧ (JMESLogEntryCollection.to_dict
          ⟨[⟨"feature", "x", "d"⟩], "0.2", ""⟩).schema_version = "0.2"
      ∧ (JMESLogEntryCollection.to_dict
          ⟨[⟨"feature", "x", "d"⟩], "0.2", ""⟩).changes
          = (List.insertionSort fileNameLe
              [("a.json", ⟨"feature", "x", "d"⟩)]).map Prod.snd
      ∧ (JMESLogEntryCollection.to_dict
          ⟨[⟨"feature", "x", "d"⟩], "0.2", ""⟩).summary = none :=
  C7_consolidate_next_release
    (ChangeDir.mk [] (some [("a.json", ⟨"feature", "x", "d"⟩)]))
    [("a.json", ⟨"feature", "x", "d"⟩)] "0.1.0"
    ⟨[⟨"feature", "x", "d"⟩], "0.2", ""⟩ rfl (by decide)

/- ## Claim C1: render iteration order -/

theorem filterMap_guard_sublist {α β : Type} (g : α → Option β) (l : List α) :
    (l.filterMap (fun a => (g a).map (fun _ => a))).Sublist l := by
  induction l with
  | nil => simp
  | cons a l ih =>
    rw [List.filterMap_cons]
    cases g a with
    | none => exact ih.cons a
    | some b => exact ih.cons₂ a

/-- Counterexample to claim C1: render_changes iterates the reverse of the
order stored in the mapping, not a semantic-version order.  For a mapping
stored with 1.0.0 before 0.1.0, the rendered output lists 0.1.0 first even
though 1.0.0 is the greater version, so the output is not descending. -/
theorem C1_render_order_counterexample :
    verLt "0.1.0" "1.0.0"
    ∧ render_changes_order
        [("1.0.0", JMESLogEntryCollection.mk [] "0.2" ""),
         ("0.1.0", JMESLogEntryCollection.mk [] "0.2" "")]
      = ["0.1.0", "1.0.0"]
    ∧ ¬ List.Pairwise (fun v w => verLe w v)
        (render_changes_order
          [("1.0.0", JMESLogEntryCollection.mk [] "0.2" ""),
           ("0.1.0", JMESLogEntryCollection.mk [] "0.2" "")]) := by
  refine ⟨by decide, by decide, by decide⟩

/-- Claim C1 as amended: render_changes iterates the releases in the
reverse of the mapping order; for every mapping produced by
load_all_changes (which stores the versions in ascending semantic-version
order), the rendered output is therefore in descending semantic-version
order. -/
theorem C1_render_descending (dir_files : List (String × ReleaseInfo)) :
    List.Pairwise (fun v w => verLe w v)
      (render_changes_order (load_all_changes dir_files)) := by
  unfold render_changes_order load_all_changes
  rw [List.pairwise_reverse, List.map_filterMap]
  simp only [Option.map_map, Function.comp]
  exact List.Pairwise.sublist
    (filterMap_guard_sublist
      (fun v => dir_files.lookup (v ++ ".json")) _)
    (List.sorted_insertionSort verLe _)

/- ## Claim C9: staging order round trip -/

theorem digitChar_toNat (d : Nat) (h : d < 10) :
    (digitChar d).toNat = 48 + d := by
  interval_cases d <;> rfl

theorem digit_lt_lexLt (xs : List Nat) :
    ∀ ys : List Nat, xs.length = ys.length →
      (∀ d ∈ xs, d < 10) → (∀ d ∈ ys, d < 10) →
      digitsVal xs < digitsVal ys →
      lexLtB (xs.map digitChar) (ys.map digitChar) = true := by
  induction xs with
  | nil =>
    intro ys hlen _ _ hv
    cases ys with
    | nil => simp [digitsVal] at hv
    | cons y ys => simp at hlen
  | cons x xs ih =>
    intro ys hlen hx hy hv
    cases ys with
    | nil => simp at hlen
    | cons y ys =>
      have hlen2 : xs.length = ys.length := by simpa using hlen
      have hx0 : x < 10 := hx x (by simp)
      have hy0 : y < 10 := hy y (by simp)
      simp only [List.map_cons, lexLtB, Bool.or_eq_true, Bool.and_eq_true,
        beq_iff_eq, decide_eq_true_eq, digitChar_toNat x hx0,
        digitChar_toNat y hy0]
      rcases Nat.lt_trichotomy x y with hxy | hxy | hxy
      · left; omega
      · subst hxy
        right
        refine ⟨rfl, ?_⟩
        apply ih ys hlen2 (fun d hd => hx d (by simp [hd]))
          (fun d hd => hy d (by simp [hd]))
        simp only [digitsVal, hlen2] at hv
        exact Nat.lt_of_add_lt_add_left hv
      · exfalso
        have hbx : digitsVal ys < 10 ^ ys.length :=
          digitsVal_lt ys (fun d hd => hy d (by simp [hd]))
        simp only [digitsVal, hlen2] at hv
        have hchain : y * 10 ^ ys.length + digitsVal ys
            < x * 10 ^ ys.length + digitsVal xs := by
          calc y * 10 ^ ys.length + digitsVal ys
              < y * 10 ^ ys.length + 10 ^ ys.length :=
                Nat.add_lt_add_left hbx _
            _ = (y + 1) * 10 ^ ys.length := by ring
            _ ≤ x * 10 ^ ys.length := Nat.mul_le_mul_right _ (by omega)
            _ ≤ x * 10 ^ ys.length + digitsVal xs := Nat.le_add_right _ _
        exact Nat.lt_asymm hchain hv

theorem lexLtB_append (as : List Char) :
    ∀ (bs xs ys : List Char), as.length = bs.length →
      lexLtB as bs = true → lexLtB (as ++ xs) (bs ++ ys) = true := by
  induction as with
  | nil =>
    intro bs xs ys hlen h
    cases bs with
    | nil => simp [lexLtB] at h
    | cons b bs => simp at hlen
  | cons a as ih =>
    intro bs xs ys hlen h
    cases bs with
    | nil => simp at hlen
    | cons b bs =>
      simp only [lexLtB, Bool.or_eq_true, Bool.and_eq_true, beq_iff_eq,
        decide_eq_true_eq] at h
      simp only [List.cons_append, lexLtB, Bool.or_eq_true, Bool.and_eq_true,
        beq_iff_eq, decide_eq_true_eq]
      rcases h with h | ⟨he, hr⟩
      · left; exact h
      · right; exact ⟨he, ih bs xs ys (by simpa using hlen) hr⟩

theorem lexLeB_of_lexLtB (as : List Char) :
    ∀ bs, lexLtB as bs = true → lexLeB as bs = true := by
  induction as with
  | nil => intro bs _; rfl
  | cons a as ih =>
    intro bs h
    cases bs with
    | nil => simp [lexLtB] at h
    | cons b bs =>
      simp only [lexLtB, Bool.or_eq_true, Bool.and_eq_true, beq_iff_eq,
        decide_eq_true_eq] at h
      simp only [lexLeB, Bool.or_eq_true, Bool.and_eq_true, beq_iff_eq,
        decide_eq_true_eq]
      rcases h with h | ⟨he, hr⟩
      · left; exact h
      · right; exact ⟨he, ih bs hr⟩

theorem generated_filename_toList (t : Nat) (e : JMESLogEntry) (r : Nat) :
    (generated_filename t e r).toList
      = natChars t
        ++ (['-'] ++ (e.type.data ++ (['-'] ++ ((short_summary e.category).data
            ++ (['-'] ++ (natChars r ++ ['.', 'j', 's', 'o', 'n'])))))) := by
  show (generated_filename t e r).data = _
  simp only [generated_filename, String.data_append, List.append_assoc,
    natStr]

theorem generated_filename_lt (t1 t2 : Nat) (e1 e2 : JMESLogEntry)
    (r1 r2 : Nat) (h : t1 < t2)
    (hlen : (natDigits t1).length = (natDigits t2).length) :
    strLt (generated_filename t1 e1 r1) (generated_filename t2 e2 r2) := by
  unfold strLt
  rw [generated_filename_toList, generated_filename_toList]
  apply lexLtB_append
  · simp [natChars, hlen]
  · unfold natChars
    apply digit_lt_lexLt _ _ hlen (natDigits_lt_ten t1) (natDigits_lt_ten t2)
    rw [digitsVal_natDigits, digitsVal_natDigits]
    exact h

/-- Counterexample to claim C9: a strictly increasing clock does not give
lexicographically increasing filenames when the decimal rendering grows a
digit.  Staging one entry at clock reading 999999999 and a second at
1000000000, the second filename sorts lexicographically before the first,
so loading pending changes returns the entries in the reverse of the
staging order. -/
theorem C9_staging_order_counterexample :
    (999999999 < 1000000000)
    ∧ strLt
        (generated_filename 1000000000 ⟨"bugfix", "b", "y"⟩ 1)
        (generated_filename 999999999 ⟨"feature", "a", "x"⟩ 1)
    ∧ load_next_changes (some (staged_files
        [(999999999, ⟨"feature", "a", "x"⟩, 1),
         (1000000000, ⟨"bugfix", "b", "y"⟩, 1)]))
      = Except.ok (JMESLogEntryCollection.mk
          [⟨"bugfix", "b", "y"⟩, ⟨"feature", "a", "x"⟩] "0.2" "")
    ∧ ([(⟨"bugfix", "b", "y"⟩ : JMESLogEntry), ⟨"feature", "a", "x"⟩]
        ≠ [⟨"feature", "a", "x"⟩, ⟨"bugfix", "b", "y"⟩]) := by
  refine ⟨by decide, by decide, by decide, by decide⟩

/-- Claim C9 as amended: for entries staged one after another at strictly
increasing clock readings whose decimal renderings all have the same
number of digits, the generated filenames are strictly increasing in the
lexicographic filename order, and loading pending changes returns the
entries in exactly the staging order. -/
theorem C9_staging_order (events : List (Nat × JMESLogEntry × Nat))
    (hmono : List.Pairwise (fun p q => p.1 < q.1) events)
    (hdig : ∀ p ∈ events, ∀ q ∈ events,
      (natDigits p.1).length = (natDigits q.1).length) :
    List.Pairwise (fun a b => strLt a.1 b.1) (staged_files events)
    ∧ load_next_changes (some (staged_files events))
        = Except.ok (JMESLogEntryCollection.mk
            (events.map (fun p => p.2.1)) "0.2" "") := by
  have hpw : List.Pairwise (fun a b => strLt a.1 b.1) (staged_files events) := by
    unfold staged_files
    rw [List.pairwise_map]
    refine List.Pairwise.imp_of_mem ?_ hmono
    intro p q hp hq hlt
    exact generated_filename_lt p.1 q.1 p.2.1 q.2.1 p.2.2 q.2.2 hlt
      (hdig p hp q hq)
  refine ⟨hpw, ?_⟩
  have hsorted : List.Sorted fileNameLe (staged_files events) := by
    refine hpw.imp ?_
    intro a b hab
    exact lexLeB_of_lexLtB _ _ hab
  simp only [load_next_changes, hsorted.insertionSort_eq]
  unfold staged_files
  rw [List.map_map]
  rfl

/-- Witness for the amended claim C9 at two concrete stage events. -/
theorem C9_staging_order_witness :
    List.Pairwise (fun p q : Nat × JMESLogEntry × Nat => p.1 < q.1)
      [(1, ⟨"feature", "a", "x"⟩, 5), (2, ⟨"bugfix", "b", "y"⟩, 7)]
    ∧ (List.Pairwise (fun a b : String × JMESLogEntry => strLt a.1 b.1)
        (staged_files
          [(1, ⟨"feature", "a", "x"⟩, 5), (2, ⟨"bugfix", "b", "y"⟩, 7)])
      ∧ load_next_changes (some (staged_files
          [(1, ⟨"feature", "a", "x"⟩, 5), (2, ⟨"bugfix", "b", "y"⟩, 7)]))
        = Except.ok (JMESLogEntryCollection.mk
            [⟨"feature", "a", "x"⟩, ⟨"bugfix", "b", "y"⟩] "0.2" "")) :=
  ⟨by decide,
   C9_staging_order
     [(1, ⟨"feature", "a", "x"⟩, 5), (2, ⟨"bugfix", "b", "y"⟩, 7)]
     (by decide) (by decide)⟩
